import Mathlib

/-!
Verification development for the Multi-Source Metadata Crawler
(src/metadata_crawler.py, class MetadataCrawler).

The crawler engine is embedded shallowly:

* Python `dict`s are association lists in insertion order; assignment
  `d[k] = v` keeps the position of an existing key and appends a new key
  at the end (`dictInsert`), matching CPython 3.7+ semantics.
* JSON-like values handled by `_infer_schema` are the inductive `PyVal`
  (strings, ints, bools, None, dicts, lists), with Python's runtime type
  names, truthiness and `str()` rendering made explicit.
* The mutable crawler state (`metadata_repo`, `lineage_graph`,
  `data_dictionary`) is threaded explicitly; every external effect
  (database introspection, HTTP response, filesystem access, workbook
  save) is an input describing the outcome the library call produced,
  including the raised-exception cases the `except` blocks catch.
-/

set_option autoImplicit false

/-! ## Association lists with Python dict semantics -/

/-- Python `d[k] = v`: overwrite in place if the key exists, else append. -/
def dictInsert {κ α : Type} [DecidableEq κ] : List (κ × α) → κ → α → List (κ × α)
  | [], k, v => [(k, v)]
  | q :: t, k, v => if q.1 = k then (k, v) :: t else q :: dictInsert t k v

/-- A sequence of `d[k] = v` assignments performed left to right
(also models `d.update(d2)` since only the final value per key matters). -/
def dictUpdateList {κ α : Type} [DecidableEq κ] (d : List (κ × α)) (kvs : List (κ × α)) :
    List (κ × α) :=
  kvs.foldl (fun a q => dictInsert a q.1 q.2) d

/-- Python `d.get(k)` / `d[k]`. -/
def lookupKey {κ α : Type} [DecidableEq κ] : List (κ × α) → κ → Option α
  | [], _ => none
  | q :: t, k => if q.1 = k then some q.2 else lookupKey t k

/-- First-some choice on options. -/
def optOr {α : Type} : Option α → Option α → Option α
  | some v, _ => some v
  | none, b => b

/-- The value of the last pair with the given key, if any. -/
def lastVal {κ α : Type} [DecidableEq κ] : List (κ × α) → κ → Option α
  | [], _ => none
  | q :: t, k => optOr (lastVal t k) (if q.1 = k then some q.2 else none)

/-- The keys of an association list, in order. -/
def keysOf {κ α : Type} (d : List (κ × α)) : List κ := d.map Prod.fst

/-! ## Python values (the JSON-like trees `_infer_schema` consumes) -/

mutual
inductive PyVal : Type where
  | vstr (s : String)
  | vint (n : Int)
  | vbool (b : Bool)
  | vnone
  | vdict (items : PyFields)
  | vlist (xs : PyList)
inductive PyFields : Type where
  | fnil
  | fcons (k : String) (v : PyVal) (rest : PyFields)
inductive PyList : Type where
  | lnil
  | lcons (x : PyVal) (rest : PyList)
end

/-- The field list of a Python dict, as a Lean list in insertion order. -/
def toListF : PyFields → List (String × PyVal)
  | .fnil => []
  | .fcons k v rest => (k, v) :: toListF rest

/-- The keys of a Python dict, in insertion order. -/
def keysF : PyFields → List String
  | .fnil => []
  | .fcons k _ rest => k :: keysF rest

/-- Python `type(value).__name__`. -/
def typeName : PyVal → String
  | .vstr _ => "str"
  | .vint _ => "int"
  | .vbool _ => "bool"
  | .vnone => "NoneType"
  | .vdict _ => "dict"
  | .vlist _ => "list"

mutual
/-- Python `repr(value)` on the modelled value universe. -/
def pyRepr : PyVal → String
  | .vstr s => "\x27" ++ s ++ "\x27"
  | .vint n => toString n
  | .vbool b => if b then "True" else "False"
  | .vnone => "None"
  | .vlist xs => "[" ++ reprL xs ++ "]"
  | .vdict items => "\x7b" ++ reprF items ++ "\x7d"
def reprL : PyList → String
  | .lnil => ""
  | .lcons x .lnil => pyRepr x
  | .lcons x rest => pyRepr x ++ ", " ++ reprL rest
def reprF : PyFields → String
  | .fnil => ""
  | .fcons k v .fnil => "\x27" ++ k ++ "\x27: " ++ pyRepr v
  | .fcons k v rest => "\x27" ++ k ++ "\x27: " ++ pyRepr v ++ ", " ++ reprF rest
end

/-- Python `str(value)` (identical to `repr` except on strings). -/
def pyStr : PyVal → String
  | .vstr s => s
  | v => pyRepr v

/-- Python truthiness of a value. -/
def truthy : PyVal → Bool
  | .vstr s => !s.data.isEmpty
  | .vint n => n != 0
  | .vbool b => b
  | .vnone => false
  | .vdict .fnil => false
  | .vdict _ => true
  | .vlist .lnil => false
  | .vlist _ => true

/-- Python `str(value)[:100]`. -/
def strTrunc (v : PyVal) : String := (pyStr v).take 100

/-- One value of the schema mapping `_infer_schema` / `_infer_dataframe_schema`
build: a dict with a `type` key, a `sample` key (possibly `None`), and, for
dataframe columns only, a `null_count` key. -/
structure InferredField where
  type : String
  sample : Option String
  null_count : Option Int
deriving DecidableEq

/-- The flattened field mapping produced by schema inference. -/
abbrev Schema := List (String × InferredField)

/-- The dotted key path: `f"{parent_key}.{key}" if parent_key else key`. -/
def joinKey (p k : String) : String := if p = "" then k else p ++ "." ++ k

/-- The entry `_infer_schema` assigns for a dict value:
`{type: type(value).__name__, sample: str(value)[:100] if value else None}`. -/
def mkEntry (v : PyVal) : InferredField :=
  ⟨typeName v, if truthy v then some (strTrunc v) else none, none⟩

/-- Whether `isinstance(value, (dict, list))` holds. -/
def isContainer : PyVal → Bool
  | .vdict _ => true
  | .vlist _ => true
  | _ => false

mutual
/-- The sequence of `schema[key] = entry` assignments `_infer_schema(data,
parent_key)` performs, in execution order (assignments done inside recursive
calls and merged through `schema.update` are replayed inline, which yields
the same final dict). -/
def pairsOf : PyVal → String → Schema
  | .vdict items, p => pairsF items p
  | .vlist (.lcons x _), p =>
      (p, ⟨"list", some (strTrunc x), none⟩) ::
        (match x with
          | .vdict items => pairsF items p
          | _ => [])
  | _, _ => []
def pairsF : PyFields → String → Schema
  | .fnil, _ => []
  | .fcons k v rest, p =>
      ((joinKey p k, mkEntry v) ::
          (if isContainer v then pairsOf v (joinKey p k) else [])) ++ pairsF rest p
end

/-- `MetadataCrawler._infer_schema(data, parent_key)`. -/
def infer_schema (data : PyVal) (parent_key : String) : Schema :=
  dictUpdateList [] (pairsOf data parent_key)

/-- No `.` occurs in the string. -/
def noDotB (k : String) : Bool := !(k.data.contains '.')

mutual
/-- Well-formed input for the dotted-path keying: dict keys are non-empty,
dot-free and distinct at every level. -/
def wfV : PyVal → Bool
  | .vdict items => wfF items
  | .vlist xs => wfL xs
  | _ => true
def wfF : PyFields → Bool
  | .fnil => true
  | .fcons k v rest =>
      !k.data.isEmpty && noDotB k && !((keysF rest).contains k) && wfV v && wfF rest
def wfL : PyList → Bool
  | .lnil => true
  | .lcons x rest => wfV x && wfL rest
end

/-- The entry finally recorded for a dict value `v` under its full key: the
loop writes `mkEntry v`, but for a non-empty list the recursive call
overwrites it with type `list` and the stringified first element. -/
def entryFor : PyVal → InferredField
  | .vlist (.lcons x _) => ⟨"list", some (strTrunc x), none⟩
  | v => mkEntry v

/-! ## Crawler data model -/

/-- One column as recorded by `crawl_database` (name, stringified type,
nullability, default, autoincrement flag). -/
structure ColumnInfo where
  name : String
  type : String
  nullable : Bool
  default : Option String
  autoincrement : Bool
deriving DecidableEq

/-- One foreign key returned by `inspector.get_foreign_keys`; the crawler
only reads `fk['referred_table']`. -/
structure ForeignKeyInfo where
  referred_table : String
deriving DecidableEq

/-- The `table_info` record built per table; the primary-key constraint and
index list are stored verbatim and never inspected, so they are opaque
payloads here. -/
structure TableInfo where
  name : String
  columns : List ColumnInfo
  primary_keys : String
  foreign_keys : List ForeignKeyInfo
  indexes : String
deriving DecidableEq

/-- One value of the data dictionary: a Python dict whose key set depends on
the source type, modelled with optional fields. -/
structure DictEntry where
  source : String
  source_type : Option String
  table : Option String
  column : Option String
  field : Option String
  data_type : String
  nullable : Option Bool
deriving DecidableEq

/-- Attributes of a lineage node; endpoints silently created by `add_edge`
carry no attributes. -/
structure NodeAttrs where
  node_type : Option String
  source : Option String
deriving DecidableEq

/-- Attributes of a lineage edge. -/
structure EdgeAttrs where
  relationship : Option String
deriving DecidableEq

/-- The `networkx.DiGraph`: nodes keyed by name, at most one edge per
ordered pair. -/
structure LineageGraph where
  nodes : List (String × NodeAttrs)
  edges : List ((String × String) × EdgeAttrs)
deriving DecidableEq

/-- `graph.add_node(name, **attrs)`: inserts the node or overwrites the
attributes of an existing one. -/
def addNode (g : LineageGraph) (name : String) (attrs : NodeAttrs) : LineageGraph :=
  ⟨dictInsert g.nodes name attrs, g.edges⟩

/-- `add_edge` creates missing endpoints as attribute-less nodes. -/
def ensureNode (g : LineageGraph) (name : String) : LineageGraph :=
  if name ∈ keysOf g.nodes then g else ⟨g.nodes ++ [(name, ⟨none, none⟩)], g.edges⟩

/-- `graph.add_edge(u, v, relationship=rel)`. -/
def addEdge (g : LineageGraph) (u v : String) (rel : String) : LineageGraph :=
  let g1 := ensureNode (ensureNode g u) v
  ⟨g1.nodes, dictInsert g1.edges (u, v) ⟨some rel⟩⟩

/-- One normalized metadata record, as appended to `self.metadata_repo`;
the payload follows the dict literals built by the three crawl methods.
A `file` record has no `schema` key for unrecognized extensions. -/
inductive MetadataRecord : Type where
  | database (db_type : String) (connection : String) (tables : List TableInfo)
      (timestamp : String)
  | api (url : String) (timestamp : String) (status_code : Int) (schema : Schema)
  | file (path : String) (extension : String) (timestamp : String) (size : Int)
      (schema : Option Schema)
deriving DecidableEq

/-- The mutable state of a `MetadataCrawler` instance. -/
structure CrawlerState where
  metadata_repo : List MetadataRecord
  lineage_graph : LineageGraph
  data_dictionary : List (String × DictEntry)
deriving DecidableEq

/-- A freshly constructed `MetadataCrawler()`. -/
def initState : CrawlerState := ⟨[], ⟨[], []⟩, []⟩

/-! ## Database crawling -/

/-- The outcome of introspecting one table name: either the full
`table_info` data, or the exception some `inspector.get_*` call raised. -/
inductive TableStep : Type where
  | ok (t : TableInfo)
  | err (msg : String)

/-- The `self.data_dictionary[dict_key] = {...}` assignments the per-column
loop performs for one table, in order. -/
def columnDictPairs (conn : String) (t : TableInfo) : List (String × DictEntry) :=
  t.columns.map fun c =>
    (t.name ++ "." ++ c.name,
      ⟨conn, none, some t.name, some c.name, none, c.type, some c.nullable⟩)

/-- All side effects of a successful iteration of the table loop: the
per-column data-dictionary writes, the `table` lineage node, and one
`foreign_key` edge per foreign key. -/
def processTable (conn : String) (st : CrawlerState) (t : TableInfo) : CrawlerState :=
  let dict := dictUpdateList st.data_dictionary (columnDictPairs conn t)
  let g1 := addNode st.lineage_graph t.name ⟨some "table", some "database"⟩
  let g2 := t.foreign_keys.foldl
    (fun g fk => addEdge g t.name fk.referred_table "foreign_key") g1
  ⟨st.metadata_repo, g2, dict⟩

/-- The table loop of `crawl_database`: processes tables in order; the first
introspection error propagates to the `except` block, which reports failure
and leaves everything mutated so far in place. On success the assembled
record is appended to `metadata_repo`. -/
def crawlTables (conn db_type ts : String) (st : CrawlerState) (acc : List TableInfo) :
    List TableStep → CrawlerState × Bool × String
  | [] =>
      (⟨st.metadata_repo ++ [.database db_type conn acc ts], st.lineage_graph,
          st.data_dictionary⟩,
        true, "Successfully crawled " ++ toString acc.length ++ " tables")
  | .err e :: _ => (st, false, "Database crawl error: " ++ e)
  | .ok t :: rest => crawlTables conn db_type ts (processTable conn st t) (acc ++ [t]) rest

/-- `MetadataCrawler.crawl_database`. The `insp` input is the behaviour of
the SQLAlchemy inspector: `.error e` when `create_engine`/`inspect`/
`get_table_names` raises, otherwise the per-table introspection outcomes. -/
def crawl_database (st : CrawlerState) (connection_string db_type ts : String)
    (insp : Except String (List TableStep)) : CrawlerState × Bool × String :=
  match insp with
  | .error e => (st, false, "Database crawl error: " ++ e)
  | .ok steps => crawlTables connection_string db_type ts st [] steps

/-! ## API crawling -/

/-- Python `s.split(sep)` for a one-character separator, on char lists. -/
def splitChar (sep : Char) : List Char → List (List Char)
  | [] => [[]]
  | c :: cs =>
      match splitChar sep cs with
      | [] => [[c]]
      | g :: gs => if c = sep then [] :: g :: gs else (c :: g) :: gs

/-- Python `s.split(sep)` for a one-character separator. -/
def pySplit (s : String) (sep : Char) : List String :=
  (splitChar sep s.data).map (fun cs => String.mk cs)

/-- `api_url.split('/')[-1] or 'root'`. -/
def endpointName (url : String) : String :=
  let seg := (pySplit url '/').getLastD ""
  if seg = "" then "root" else seg

/-- The outcome of `requests.get`: a raised exception (connection error,
timeout), or a response with a status code, the text of the `HTTPError`
that `raise_for_status` would raise, and the JSON-parse outcome of the
body. -/
inductive HttpResult : Type where
  | exn (msg : String)
  | response (status : Int) (statusLine : String) (body : Except String PyVal)

/-- `MetadataCrawler.crawl_api` (`requests.raise_for_status` raises exactly
for status codes 400–599). -/
def crawl_api (st : CrawlerState) (api_url ts : String) (resp : HttpResult) :
    CrawlerState × Bool × String :=
  match resp with
  | .exn e => (st, false, "API crawl error: " ++ e)
  | .response status sline body =>
      if 400 ≤ status ∧ status < 600 then (st, false, "API crawl error: " ++ sline)
      else
        match body with
        | .error e => (st, false, "API crawl error: " ++ e)
        | .ok data =>
            let record : MetadataRecord := .api api_url ts status (infer_schema data "")
            let name := endpointName api_url
            (⟨st.metadata_repo ++ [record],
                addNode st.lineage_graph name ⟨some "api", some api_url⟩,
                st.data_dictionary⟩,
              true, "Successfully crawled API: " ++ api_url)

/-! ## File crawling -/

/-- A pandas dataframe as far as `_infer_dataframe_schema` observes it:
row count and, per column, the name, dtype string, null count and the
stringified first value. -/
structure DfCol where
  name : String
  dtype : String
  null_count : Int
  first : String
deriving DecidableEq

/-- Dataframe sample (first 5 rows were requested via `nrows=5`). -/
structure DataFrame where
  nrows : Nat
  cols : List DfCol

/-- `MetadataCrawler._infer_dataframe_schema`. -/
def infer_dataframe_schema (df : DataFrame) : Schema :=
  df.cols.foldl
    (fun s c =>
      dictInsert s c.name ⟨c.dtype, if 0 < df.nrows then some c.first else none,
        some c.null_count⟩)
    []

/-- `os.path.basename` for forward-slash paths. -/
def fileBasename (path : String) : String := (pySplit path '/').getLastD ""

/-- The extension part of `os.path.splitext` on the basename: the suffix
from the last dot, ignoring leading dots. -/
def extChars (bs : List Char) : List Char :=
  let lead := bs.takeWhile (· = '.')
  let rest := bs.drop lead.length
  if rest.contains '.' then '.' :: (rest.reverse.takeWhile (· ≠ '.')).reverse
  else []

/-- `os.path.splitext(file_path)[1].lower()`. -/
def file_extension (path : String) : String :=
  String.mk ((extChars (fileBasename path).data).map Char.toLower)

/-- The filesystem/parsing behaviour behind one `crawl_file` call: the
outcome of `os.path.getsize` and of whichever reader the extension
dispatches to. -/
structure FileAccess where
  size : Except String Int
  csv : Except String DataFrame
  excel : Except String DataFrame
  jsonData : Except String PyVal

/-- `MetadataCrawler.crawl_file`. -/
def crawl_file (st : CrawlerState) (file_path ts : String) (fa : FileAccess) :
    CrawlerState × Bool × String :=
  let ext := file_extension file_path
  match fa.size with
  | .error e => (st, false, "File crawl error: " ++ e)
  | .ok sz =>
      let schemaRes : Except String (Option Schema) :=
        if ext = ".csv" then fa.csv.map (fun df => some (infer_dataframe_schema df))
        else if ext = ".xlsx" ∨ ext = ".xls" then
          fa.excel.map (fun df => some (infer_dataframe_schema df))
        else if ext = ".json" then fa.jsonData.map (fun d => some (infer_schema d ""))
        else .ok none
      match schemaRes with
      | .error e => (st, false, "File crawl error: " ++ e)
      | .ok schema? =>
          let name := fileBasename file_path
          (⟨st.metadata_repo ++ [.file file_path ext ts sz schema?],
              addNode st.lineage_graph name ⟨some "file", some file_path⟩,
              st.data_dictionary⟩,
            true, "Successfully crawled file: " ++ name)

/-! ## Data dictionary aggregation -/

/-- The dictionary writes one record contributes inside
`generate_data_dictionary`, as the loop performs them. -/
def genItem (d : List (String × DictEntry)) : MetadataRecord → List (String × DictEntry)
  | .database _ conn tables _ =>
      tables.foldl
        (fun d t =>
          t.columns.foldl
            (fun d c =>
              dictInsert d (t.name ++ "." ++ c.name)
                ⟨conn, some "database", some t.name, some c.name, none, c.type,
                  some c.nullable⟩)
            d)
        d
  | .file path _ _ _ schema? =>
      (schema?.getD []).foldl
        (fun d fi =>
          dictInsert d (fileBasename path ++ "." ++ fi.1)
            ⟨path, some "file", none, none, some fi.1, fi.2.type, none⟩)
        d
  | .api url _ _ schema =>
      schema.foldl
        (fun d fi =>
          dictInsert d (url ++ "." ++ fi.1)
            ⟨url, some "api", none, none, some fi.1, fi.2.type, none⟩)
        d

/-- `MetadataCrawler.generate_data_dictionary`, as a function of the
accumulated metadata sequence it iterates over. -/
def generate_data_dictionary (repo : List MetadataRecord) : List (String × DictEntry) :=
  repo.foldl genItem []

/-- The method call on a crawler instance: it reads `self.metadata_repo`,
builds a fresh local dict and returns it without touching any state. -/
def generate_data_dictionary_call (st : CrawlerState) :
    CrawlerState × List (String × DictEntry) :=
  (st, generate_data_dictionary st.metadata_repo)

/-- The key/entry pairs one record contributes, in iteration order
(specification view of `genItem`). -/
def recordPairs : MetadataRecord → List (String × DictEntry)
  | .database _ conn tables _ =>
      tables.flatMap fun t =>
        t.columns.map fun c =>
          (t.name ++ "." ++ c.name,
            ⟨conn, some "database", some t.name, some c.name, none, c.type,
              some c.nullable⟩)
  | .file path _ _ _ schema? =>
      (schema?.getD []).map fun fi =>
        (fileBasename path ++ "." ++ fi.1,
          ⟨path, some "file", none, none, some fi.1, fi.2.type, none⟩)
  | .api url _ _ schema =>
      schema.map fun fi =>
        (url ++ "." ++ fi.1, ⟨url, some "api", none, none, some fi.1, fi.2.type, none⟩)

/-! ## Excel export -/

/-- One worksheet: its title and its rows (styling and column widths are
cosmetic and not modelled). -/
structure Sheet where
  title : String
  rows : List (List String)
deriving DecidableEq

/-- `str(value.get('nullable', ''))`. -/
def nullableStr : Option Bool → String
  | some true => "True"
  | some false => "False"
  | none => ""

/-- `item['source_type']` of a record. -/
def record_source_type : MetadataRecord → String
  | .database _ _ _ _ => "database"
  | .api _ _ _ _ => "api"
  | .file _ _ _ _ _ => "file"

/-- The row written to the Data Dictionary sheet for one entry. -/
def dictRow (kv : String × DictEntry) : List String :=
  [kv.1, kv.2.source, kv.2.source_type.getD "",
    (match kv.2.table with
      | some t => t
      | none => kv.2.field.getD ""),
    kv.2.column.getD "", kv.2.data_type, nullableStr kv.2.nullable]

/-- The per-source-type counts (`summary.get(source_type, 0) + 1`). -/
def summaryCounts (repo : List MetadataRecord) : List (String × Nat) :=
  repo.foldl
    (fun s r =>
      dictInsert s (record_source_type r)
        ((lookupKey s (record_source_type r)).getD 0 + 1))
    []

/-- The workbook `export_to_excel` builds, as pure data: three sheets whose
first rows are the fixed headers. -/
def export_sheets (st : CrawlerState) : List Sheet :=
  [⟨"Data Dictionary",
      ["Field", "Source", "Type", "Table/File", "Column", "Data Type", "Nullable"] ::
        (generate_data_dictionary st.metadata_repo).map dictRow⟩,
    ⟨"Metadata Summary",
      ["Source Type", "Count", "Details"] ::
        (summaryCounts st.metadata_repo).map
          (fun sc => [sc.1, toString sc.2, toString sc.2 ++ " " ++ sc.1 ++ "(s) crawled"])⟩,
    ⟨"Lineage Map",
      ["From", "To", "Relationship"] ::
        st.lineage_graph.edges.map
          (fun e => [e.1.1, e.1.2, e.2.relationship.getD "related"])⟩]

/-- `MetadataCrawler.export_to_excel`: builds the workbook and reports the
outcome of `wb.save` (the one external effect that can raise). -/
def export_to_excel (st : CrawlerState) (file_path : String)
    (save : Except String Unit) : List Sheet × Bool × String :=
  (export_sheets st,
    match save with
    | .ok _ => (true, "Successfully exported to " ++ file_path)
    | .error e => (false, "Export error: " ++ e))

/-! ## Dictionary lemmas -/

@[simp] theorem keysOf_nil {κ α : Type} : keysOf ([] : List (κ × α)) = [] := rfl

@[simp] theorem keysOf_cons {κ α : Type} (q : κ × α) (t : List (κ × α)) :
    keysOf (q :: t) = q.1 :: keysOf t := rfl

@[simp] theorem keysOf_append {κ α : Type} (a b : List (κ × α)) :
    keysOf (a ++ b) = keysOf a ++ keysOf b := by
  simp [keysOf]

theorem optOr_none_right {α : Type} (a : Option α) : optOr a none = a := by
  cases a <;> rfl

theorem optOr_none_left {α : Type} (a : Option α) : optOr none a = a := rfl

theorem optOr_assoc {α : Type} (a b c : Option α) :
    optOr (optOr a b) c = optOr a (optOr b c) := by
  cases a <;> cases b <;> rfl

theorem lookupKey_dictInsert {κ α : Type} [DecidableEq κ] (d : List (κ × α)) (k k' : κ)
    (v : α) :
    lookupKey (dictInsert d k v) k' = if k = k' then some v else lookupKey d k' := by
  induction d with
  | nil => simp [dictInsert, lookupKey]
  | cons q t ih =>
      by_cases hq : q.1 = k
      · by_cases hk : k = k'
        · subst hk; simp [dictInsert, lookupKey, hq]
        · have : ¬ q.1 = k' := fun h => hk (hq.symm.trans h)
          simp [dictInsert, lookupKey, hq, hk, this]
      · by_cases hk : k = k'
        · subst hk
          have : ¬ q.1 = k := hq
          simp [dictInsert, lookupKey, hq, this, ih]
        · simp [dictInsert, lookupKey, hq, hk, ih]

theorem lastVal_append {κ α : Type} [DecidableEq κ] (a b : List (κ × α)) (k : κ) :
    lastVal (a ++ b) k = optOr (lastVal b k) (lastVal a k) := by
  induction a with
  | nil => simp [lastVal, optOr_none_right]
  | cons q t ih => simp [lastVal, ih, optOr_assoc]

theorem lookupKey_updateList {κ α : Type} [DecidableEq κ] (kvs d : List (κ × α)) (k : κ) :
    lookupKey (dictUpdateList d kvs) k = optOr (lastVal kvs k) (lookupKey d k) := by
  induction kvs generalizing d with
  | nil => rfl
  | cons q t ih =>
      show lookupKey (dictUpdateList (dictInsert d q.1 q.2) t) k = _
      rw [ih, lookupKey_dictInsert]
      show _ = optOr (optOr (lastVal t k) _) _
      rw [optOr_assoc]
      by_cases hq : q.1 = k <;> simp [hq, optOr]

theorem keysOf_dictInsert {κ α : Type} [DecidableEq κ] (d : List (κ × α)) (k : κ) (v : α) :
    keysOf (dictInsert d k v) = if k ∈ keysOf d then keysOf d else keysOf d ++ [k] := by
  induction d with
  | nil => simp [dictInsert]
  | cons q t ih =>
      by_cases hq : q.1 = k
      · simp [dictInsert, hq]
      · have hne : ¬ k = q.1 := fun h => hq h.symm
        by_cases hk : k ∈ keysOf t
        · simp [dictInsert, hq, ih, hk, hne]
        · simp [dictInsert, hq, ih, hk, hne]

theorem nodup_keysOf_dictInsert {κ α : Type} [DecidableEq κ] (d : List (κ × α)) (k : κ)
    (v : α) (h : (keysOf d).Nodup) : (keysOf (dictInsert d k v)).Nodup := by
  rw [keysOf_dictInsert]
  by_cases hk : k ∈ keysOf d
  · simpa [hk]
  · simp [hk, List.nodup_append, h]

theorem nodup_keysOf_updateList {κ α : Type} [DecidableEq κ] (kvs d : List (κ × α))
    (h : (keysOf d).Nodup) : (keysOf (dictUpdateList d kvs)).Nodup := by
  induction kvs generalizing d with
  | nil => exact h
  | cons q t ih => exact ih _ (nodup_keysOf_dictInsert _ _ _ h)

theorem lastVal_eq_none {κ α : Type} [DecidableEq κ] (l : List (κ × α)) (k : κ)
    (h : k ∉ keysOf l) : lastVal l k = none := by
  induction l with
  | nil => rfl
  | cons q t ih =>
      simp at h
      rw [lastVal, ih h.2, if_neg (fun hq => h.1 hq.symm)]
      rfl

theorem mem_keysOf_of_lookupKey {κ α : Type} [DecidableEq κ] (l : List (κ × α)) (k : κ)
    (v : α) (h : lookupKey l k = some v) : k ∈ keysOf l := by
  induction l with
  | nil => simp [lookupKey] at h
  | cons q t ih =>
      by_cases hq : q.1 = k
      · simp [hq.symm]
      · rw [lookupKey, if_neg hq] at h
        simp [ih h]

theorem dictInsert_absent {κ α : Type} [DecidableEq κ] (d : List (κ × α)) (k : κ) (v : α)
    (h : k ∉ keysOf d) : dictInsert d k v = d ++ [(k, v)] := by
  induction d with
  | nil => rfl
  | cons q t ih =>
      simp at h
      rw [dictInsert, if_neg (fun hq => h.1 hq.symm), ih h.2]
      rfl

/-! ## String lemmas for dotted key paths -/

theorem str_ext {a b : String} (h : a.data = b.data) : a = b := by
  cases a; cases b; exact congrArg String.mk h

theorem str_append_cancel_left {s a b : String} (h : s ++ a = s ++ b) : a = b := by
  apply str_ext
  have hd := congrArg String.data h
  rw [String.data_append, String.data_append] at hd
  exact List.append_cancel_left hd

theorem append_ne_empty_left (a b : String) (h : a ≠ "") : a ++ b ≠ "" := by
  intro hc
  have hl := congrArg String.length hc
  rw [String.length_append] at hl
  have ha : a.length ≠ 0 := by
    intro h0
    exact h (str_ext (List.length_eq_zero.mp h0))
  have : ("" : String).length = 0 := rfl
  omega

theorem self_ne_dotext (a r : String) : a ≠ a ++ "." ++ r := by
  intro hc
  have hl := congrArg String.length hc
  rw [String.length_append, String.length_append] at hl
  have : ("." : String).length = 1 := rfl
  omega

theorem dot_mem_dotext (a b : String) : '.' ∈ (a ++ "." ++ b).data := by
  rw [String.data_append, String.data_append]
  have : ('.' : Char) ∈ ("." : String).data := by
    show ('.' : Char) ∈ ['.']
    simp
  simp [this]

theorem noDot_not_mem (k : String) (h : noDotB k = true) : '.' ∉ k.data := by
  simpa [noDotB] using h

theorem ne_empty_of_data (k : String) (h : k.data.isEmpty = false) : k ≠ "" := by
  intro hc
  subst hc
  simp at h

theorem joinKey_app (p k : String) (hp : p ≠ "") : joinKey p k = p ++ "." ++ k := by
  simp [joinKey, hp]

theorem joinKey_ne_empty (p k : String) (hk : k ≠ "") : joinKey p k ≠ "" := by
  by_cases hp : p = ""
  · simpa [joinKey, hp]
  · rw [joinKey_app p k hp]
    exact append_ne_empty_left _ _ (append_ne_empty_left _ _ hp)

theorem joinKey_inj_right {p k k' : String} (h : joinKey p k = joinKey p k') : k = k' := by
  by_cases hp : p = ""
  · simpa [joinKey, hp] using h
  · rw [joinKey_app p k hp, joinKey_app p k' hp] at h
    exact str_append_cancel_left (a := k) (b := k') (s := p ++ ".") h

theorem joinKey_ne_ext {p k k' r : String} (hk : noDotB k = true)
    (h : joinKey p k = joinKey p k' ++ "." ++ r) : False := by
  by_cases hp : p = ""
  · rw [joinKey, joinKey, if_pos hp, if_pos hp] at h
    exact noDot_not_mem k hk (h ▸ dot_mem_dotext k' r)
  · rw [joinKey_app p k hp, joinKey_app p k' hp] at h
    rw [String.append_assoc (p ++ "." ++ k') "." r,
      String.append_assoc (p ++ ".") k' ("." ++ r),
      ← String.append_assoc k' "." r] at h
    have h2 := str_append_cancel_left (s := p ++ ".") (a := k) (b := k' ++ "." ++ r) h
    exact noDot_not_mem k hk (h2 ▸ dot_mem_dotext k' r)

theorem dotext_ne_self (a r : String) (b : String) (hb : b = a ++ "." ++ r) : b ≠ a :=
  fun hc => self_ne_dotext a r (hc.symm.trans hb)

theorem dotext_dotext (b k r : String) :
    (b ++ "." ++ k) ++ "." ++ r = b ++ "." ++ (k ++ "." ++ r) := by
  simp [String.append_assoc]

theorem not_mem_of_not_contains (l : List String) (a : String)
    (h : (!(l.contains a)) = true) : a ∉ l := by
  simpa using h

/-! ## Key shape of the inferred schema

Every assignment `_infer_schema` performs under a dict goes to the dotted
path of one of the dict's keys, or deeper below it. -/

mutual

theorem pairsOf_shape : ∀ (v : PyVal) (b : String), wfV v = true → b ≠ "" →
    ∀ q ∈ keysOf (pairsOf v b), q = b ∨ ∃ r, q = b ++ "." ++ r
  | .vstr _, _, _, _, _, hq => by simp [pairsOf] at hq
  | .vint _, _, _, _, _, hq => by simp [pairsOf] at hq
  | .vbool _, _, _, _, _, hq => by simp [pairsOf] at hq
  | .vnone, _, _, _, _, hq => by simp [pairsOf] at hq
  | .vlist .lnil, _, _, _, _, hq => by simp [pairsOf] at hq
  | .vdict items, b, hw, hb, q, hq => by
      have hw' : wfF items = true := by simpa [wfV] using hw
      have hq' : q ∈ keysOf (pairsF items b) := by
        simpa [pairsOf] using hq
      obtain ⟨k, _, hc⟩ := pairsF_shape items b hw' q hq'
      rcases hc with hc | ⟨r, hc⟩
      · exact Or.inr ⟨k, by rw [hc, joinKey_app _ _ hb]⟩
      · exact Or.inr ⟨k ++ "." ++ r, by rw [hc, joinKey_app _ _ hb, dotext_dotext]⟩
  | .vlist (.lcons x xs), b, hw, hb, q, hq => by
      have hx : wfV x = true := by
        have h2 : wfL (.lcons x xs) = true := by simpa [wfV] using hw
        simp only [wfL, Bool.and_eq_true] at h2
        exact h2.1
      rcases x with s | n | b' | _ | items | xs'
      · simp [pairsOf, keysOf] at hq
        exact Or.inl hq
      · simp [pairsOf, keysOf] at hq
        exact Or.inl hq
      · simp [pairsOf, keysOf] at hq
        exact Or.inl hq
      · simp [pairsOf, keysOf] at hq
        exact Or.inl hq
      · simp only [pairsOf, keysOf_cons, List.mem_cons] at hq
        rcases hq with hq | hq
        · exact Or.inl hq
        · have hw' : wfF items = true := by simpa [wfV] using hx
          obtain ⟨k, _, hc⟩ := pairsF_shape items b hw' q hq
          rcases hc with hc | ⟨r, hc⟩
          · exact Or.inr ⟨k, by rw [hc, joinKey_app _ _ hb]⟩
          · exact Or.inr ⟨k ++ "." ++ r, by rw [hc, joinKey_app _ _ hb, dotext_dotext]⟩
      · simp [pairsOf, keysOf] at hq
        exact Or.inl hq

theorem pairsF_shape : ∀ (items : PyFields) (p : String), wfF items = true →
    ∀ q ∈ keysOf (pairsF items p),
      ∃ k, k ∈ keysF items ∧ (q = joinKey p k ∨ ∃ r, q = joinKey p k ++ "." ++ r)
  | .fnil, _, _, _, hq => by simp [pairsF] at hq
  | .fcons k₀ v₀ rest, p, hw, q, hq => by
      simp only [wfF, Bool.and_eq_true] at hw
      obtain ⟨⟨⟨⟨hne, _⟩, _⟩, hwv⟩, hwr⟩ := hw
      have hk₀ : k₀ ≠ "" := ne_empty_of_data k₀ (by simpa using hne)
      simp only [pairsF, keysOf_append, keysOf_cons, List.mem_append, List.mem_cons] at hq
      rcases hq with (hq | hq) | hq
      · exact ⟨k₀, by simp [keysF], Or.inl hq⟩
      · by_cases hc : isContainer v₀ = true
        · rw [if_pos hc] at hq
          have := pairsOf_shape v₀ (joinKey p k₀) hwv (joinKey_ne_empty p k₀ hk₀) q hq
          rcases this with h | ⟨r, h⟩
          · exact ⟨k₀, by simp [keysF], Or.inl h⟩
          · exact ⟨k₀, by simp [keysF], Or.inr ⟨r, h⟩⟩
        · rw [if_neg hc] at hq
          simp at hq
      · obtain ⟨k, hk, hc⟩ := pairsF_shape rest p hwr q hq
        exact ⟨k, by simp [keysF, hk], hc⟩

end

/-- Keys strictly below a prefix never collide with the prefix itself. -/
theorem lastVal_pairsF_deeper (items : PyFields) (K : String) (hw : wfF items = true)
    (hK : K ≠ "") : lastVal (pairsF items K) K = none := by
  apply lastVal_eq_none
  intro hmem
  obtain ⟨k₃, _, hc⟩ := pairsF_shape items K hw K hmem
  rcases hc with hc | ⟨r, hc⟩
  · rw [joinKey_app _ _ hK] at hc
    exact self_ne_dotext K k₃ hc
  · rw [joinKey_app _ _ hK, dotext_dotext] at hc
    exact self_ne_dotext K (k₃ ++ "." ++ r) hc

theorem pairsOf_vdict (items : PyFields) (p : String) :
    pairsOf (.vdict items) p = pairsF items p := by
  simp [pairsOf]

theorem pairsOf_vlist_nil (p : String) : pairsOf (.vlist .lnil) p = [] := by
  simp [pairsOf]

theorem pairsOf_leaf (v : PyVal) (p : String) (h : isContainer v = false) :
    pairsOf v p = [] := by
  rcases v with s | n | b | _ | items | xs
  · simp [pairsOf]
  · simp [pairsOf]
  · simp [pairsOf]
  · simp [pairsOf]
  · simp [isContainer] at h
  · simp [isContainer] at h

/-- The last assignment `_infer_schema` makes to the dotted path of a
dict key is `entryFor` of its value. -/
theorem pairsF_lastVal : ∀ (items : PyFields) (p k : String) (v : PyVal),
    wfF items = true → (k, v) ∈ toListF items →
    lastVal (pairsF items p) (joinKey p k) = some (entryFor v)
  | .fnil, _, _, _, _, hmem => by simp [toListF] at hmem
  | .fcons k₀ v₀ rest, p, k, v, hw, hmem => by
      simp only [wfF, Bool.and_eq_true] at hw
      obtain ⟨⟨⟨⟨hne, hnd⟩, hnotin⟩, hwv⟩, hwr⟩ := hw
      have hk₀ : k₀ ≠ "" := ne_empty_of_data k₀ (by simpa using hne)
      simp only [toListF, List.mem_cons] at hmem
      rcases hmem with heq | hmem
      · injection heq with h1 h2
        subst h1; subst h2
        have hrest : lastVal (pairsF rest p) (joinKey p k) = none := by
          apply lastVal_eq_none
          intro hmem'
          obtain ⟨k'', hk'', hc⟩ := pairsF_shape rest p hwr _ hmem'
          rcases hc with hc | ⟨r, hc⟩
          · exact not_mem_of_not_contains _ _ hnotin (joinKey_inj_right hc ▸ hk'')
          · exact joinKey_ne_ext hnd hc
        rw [pairsF, lastVal_append, hrest, optOr_none_left, lastVal, if_pos rfl]
        have hKne : joinKey p k ≠ "" := joinKey_ne_empty p k hk₀
        rcases v with s | n | b' | _ | items₀ | xs₀
        · simp [isContainer, lastVal, optOr, entryFor]
        · simp [isContainer, lastVal, optOr, entryFor]
        · simp [isContainer, lastVal, optOr, entryFor]
        · simp [isContainer, lastVal, optOr, entryFor]
        · have hw₀ : wfF items₀ = true := by simpa [wfV] using hwv
          rw [if_pos (by simp [isContainer]), pairsOf_vdict,
            lastVal_pairsF_deeper items₀ _ hw₀ hKne]
          simp [optOr, entryFor]
        · rcases xs₀ with _ | ⟨x, xs⟩
          · rw [if_pos (by simp [isContainer]), pairsOf_vlist_nil]
            simp [lastVal, optOr, entryFor, mkEntry, typeName, truthy]
          · have hx : wfV x = true := by
              have h2 : wfL (.lcons x xs) = true := by simpa [wfV] using hwv
              simp only [wfL, Bool.and_eq_true] at h2
              exact h2.1
            rw [if_pos (by simp [isContainer])]
            rcases x with s | n | b' | _ | items_x | xs_x
            · simp only [pairsOf]
              simp [lastVal, optOr, entryFor]
            · simp only [pairsOf]
              simp [lastVal, optOr, entryFor]
            · simp only [pairsOf]
              simp [lastVal, optOr, entryFor]
            · simp only [pairsOf]
              simp [lastVal, optOr, entryFor]
            · have hdeep := lastVal_pairsF_deeper items_x (joinKey p k)
                (by simpa [wfV] using hx) hKne
              simp only [pairsOf]
              simp [lastVal, hdeep, optOr, entryFor]
            · simp only [pairsOf]
              simp [lastVal, optOr, entryFor]
      · rw [pairsF, lastVal_append, pairsF_lastVal rest p k v hwr hmem]
        rfl

/-- Final lookup of a dict key's dotted path in the inferred schema. -/
theorem infer_schema_lookup (items : PyFields) (p k : String) (v : PyVal)
    (hw : wfF items = true) (hmem : (k, v) ∈ toListF items) :
    lookupKey (infer_schema (.vdict items) p) (joinKey p k) = some (entryFor v) := by
  rw [infer_schema, lookupKey_updateList, pairsOf_vdict,
    pairsF_lastVal items p k v hw hmem]
  rfl

/-- The schema dict never repeats a key. -/
theorem infer_schema_nodup (v : PyVal) (p : String) :
    (keysOf (infer_schema v p)).Nodup := by
  exact nodup_keysOf_updateList _ _ (by simp)

/-! ## The aggregator as a flat fold of keyed writes -/

theorem colsFold_eq (conn : String) (t : TableInfo) :
    ∀ (cols : List ColumnInfo) (d : List (String × DictEntry)),
      cols.foldl
          (fun d c =>
            dictInsert d (t.name ++ "." ++ c.name)
              ⟨conn, some "database", some t.name, some c.name, none, c.type,
                some c.nullable⟩)
          d
        = dictUpdateList d
            (cols.map fun c =>
              (t.name ++ "." ++ c.name,
                ⟨conn, some "database", some t.name, some c.name, none, c.type,
                  some c.nullable⟩))
  | [], _ => rfl
  | c :: rest, d => colsFold_eq conn t rest _

theorem fileFold_eq (path : String) :
    ∀ (schema : Schema) (d : List (String × DictEntry)),
      schema.foldl
          (fun d fi =>
            dictInsert d (fileBasename path ++ "." ++ fi.1)
              ⟨path, some "file", none, none, some fi.1, fi.2.type, none⟩)
          d
        = dictUpdateList d
            (schema.map fun fi =>
              (fileBasename path ++ "." ++ fi.1,
                ⟨path, some "file", none, none, some fi.1, fi.2.type, none⟩))
  | [], _ => rfl
  | fi :: rest, d => fileFold_eq path rest _

theorem apiFold_eq (url : String) :
    ∀ (schema : Schema) (d : List (String × DictEntry)),
      schema.foldl
          (fun d fi =>
            dictInsert d (url ++ "." ++ fi.1)
              ⟨url, some "api", none, none, some fi.1, fi.2.type, none⟩)
          d
        = dictUpdateList d
            (schema.map fun fi =>
              (url ++ "." ++ fi.1,
                ⟨url, some "api", none, none, some fi.1, fi.2.type, none⟩))
  | [], _ => rfl
  | fi :: rest, d => apiFold_eq url rest _

theorem updateList_append {κ α : Type} [DecidableEq κ] (d a b : List (κ × α)) :
    dictUpdateList d (a ++ b) = dictUpdateList (dictUpdateList d a) b := by
  simp [dictUpdateList, List.foldl_append]

theorem dbFold_eq (conn : String) :
    ∀ (tables : List TableInfo) (d : List (String × DictEntry)),
      tables.foldl
          (fun d t =>
            t.columns.foldl
              (fun d c =>
                dictInsert d (t.name ++ "." ++ c.name)
                  ⟨conn, some "database", some t.name, some c.name, none, c.type,
                    some c.nullable⟩)
              d)
          d
        = dictUpdateList d
            (tables.flatMap fun t =>
              t.columns.map fun c =>
                (t.name ++ "." ++ c.name,
                  ⟨conn, some "database", some t.name, some c.name, none, c.type,
                    some c.nullable⟩))
  | [], _ => rfl
  | t :: rest, d => by
      simp only [List.foldl_cons, List.flatMap_cons]
      rw [colsFold_eq conn t t.columns d, updateList_append]
      exact dbFold_eq conn rest _

/-- Each record's contribution to the dictionary is the block of keyed
writes `recordPairs` describes. -/
theorem genItem_eq : ∀ (r : MetadataRecord) (d : List (String × DictEntry)),
    genItem d r = dictUpdateList d (recordPairs r)
  | .database dbt conn tables ts, d => by
      simp only [genItem, recordPairs]
      exact dbFold_eq conn tables d
  | .file path e ts sz schema?, d => by
      simp only [genItem, recordPairs]
      exact fileFold_eq path (schema?.getD []) d
  | .api url ts sc schema, d => by
      simp only [genItem, recordPairs]
      exact apiFold_eq url schema d

/-- The whole aggregation is the replay of all records' writes in crawl
order. -/
theorem gen_fold_eq : ∀ (repo : List MetadataRecord) (d : List (String × DictEntry)),
    repo.foldl genItem d = dictUpdateList d (repo.flatMap recordPairs)
  | [], _ => rfl
  | r :: rest, d => by
      simp only [List.foldl_cons, List.flatMap_cons]
      rw [genItem_eq r d, updateList_append]
      exact gen_fold_eq rest _

theorem gen_eq (repo : List MetadataRecord) :
    generate_data_dictionary repo = dictUpdateList [] (repo.flatMap recordPairs) :=
  gen_fold_eq repo []

/-! ## Claims about schema inference (C5, C6) -/

/-- C5, counterexample: the claim says the recorded sample is always the
stringified value truncated to 100 characters, but for the mapping
`{"a": 0}` the code records `sample = None`, because the sample expression
is `str(value)[:100] if value else None` and `0` is falsy. -/
theorem C5_counterexample :
    lookupKey (infer_schema (.vdict (.fcons "a" (.vint 0) .fnil)) "") "a"
        = some ⟨"int", none, none⟩ ∧
    lookupKey (infer_schema (.vdict (.fcons "a" (.vint 0) .fnil)) "") "a"
        ≠ some ⟨"int", some ((pyStr (.vint 0)).take 100), none⟩ := by
  constructor
  · decide
  · decide

/-- C5 (amended): for every mapping whose keys are non-empty, dot-free and
distinct at every level, and every key in it, the inferred schema records
under the dotted key path an entry whose type is the runtime type name of
the value; its sample is the stringified value truncated to 100 characters
when the value is truthy and is None when it is falsy, except that for a
non-empty list value the recursive call overwrites the sample with the
stringified first element (`entryFor`). Recursion into nested mappings and
non-empty sequences uses the dotted key path as prefix. -/
theorem C5_theorem (items : PyFields) (p k : String) (v : PyVal)
    (hw : wfF items = true) (hmem : (k, v) ∈ toListF items) :
    lookupKey (infer_schema (.vdict items) p) (joinKey p k) = some (entryFor v) ∧
    (∀ (k₂ : String) (v₂ : PyVal), isContainer v₂ = true →
        pairsF (.fcons k₂ v₂ .fnil) p
          = (joinKey p k₂, mkEntry v₂) :: pairsOf v₂ (joinKey p k₂)) := by
  constructor
  · exact infer_schema_lookup items p k v hw hmem
  · intro k₂ v₂ hc
    simp [pairsF, hc]

/-- C5 witness: instantiation at the mapping `{"a": 7}`. -/
theorem C5_witness :
    lookupKey (infer_schema (.vdict (.fcons "a" (.vint 7) .fnil)) "") (joinKey "" "a")
      = some (entryFor (.vint 7)) :=
  (C5_theorem (.fcons "a" (.vint 7) .fnil) "" "a" (.vint 7) (by decide)
    (by simp [toListF])).1

/-- C6: the schema dict never repeats a key; under well-formed keys every
mapping key's dotted path appears exactly once; inference is a pure
function (deterministic); an empty mapping or empty sequence yields an
empty schema. -/
theorem C6_theorem :
    (∀ (v : PyVal) (p : String), (keysOf (infer_schema v p)).Nodup) ∧
    (∀ (items : PyFields) (p k : String) (v : PyVal), wfF items = true →
        (k, v) ∈ toListF items →
        (keysOf (infer_schema (.vdict items) p)).count (joinKey p k) = 1) ∧
    (∀ (v : PyVal) (p : String), infer_schema v p = infer_schema v p) ∧
    (∀ p : String, infer_schema (.vdict .fnil) p = [] ∧
        infer_schema (.vlist .lnil) p = []) := by
  refine ⟨infer_schema_nodup, ?_, fun v p => rfl, fun p => ⟨?_, ?_⟩⟩
  · intro items p k v hw hmem
    exact List.count_eq_one_of_mem (infer_schema_nodup _ _)
      (mem_keysOf_of_lookupKey _ _ _ (infer_schema_lookup items p k v hw hmem))
  · rw [infer_schema, pairsOf_vdict]
    rfl
  · rw [infer_schema, pairsOf_vlist_nil]
    rfl

/-- C6 witness: instantiation at the mapping `{"a": 1}`. -/
theorem C6_witness :
    (keysOf (infer_schema (.vdict (.fcons "a" (.vint 1) .fnil)) "")).count
        (joinKey "" "a") = 1 :=
  C6_theorem.2.1 (.fcons "a" (.vint 1) .fnil) "" "a" (.vint 1) (by decide)
    (by simp [toListF])

/-! ## Claims about the aggregator (C3, C4, C10) -/

/-- C3: `generate_data_dictionary` iterates the records in crawl order with
no cross-record deduplication: a key's final entry is the one written by
the latest pair in crawl order (`lastVal`), and on any split of the repo
the later segment's entry wins whenever it defines the key. -/
theorem C3_theorem :
    (∀ (repo : List MetadataRecord) (key : String),
        lookupKey (generate_data_dictionary repo) key
          = lastVal (repo.flatMap recordPairs) key) ∧
    (∀ (repo₁ repo₂ : List MetadataRecord) (key : String),
        lookupKey (generate_data_dictionary (repo₁ ++ repo₂)) key
          = optOr (lookupKey (generate_data_dictionary repo₂) key)
              (lookupKey (generate_data_dictionary repo₁) key)) := by
  have h1 : ∀ (repo : List MetadataRecord) (key : String),
      lookupKey (generate_data_dictionary repo) key
        = lastVal (repo.flatMap recordPairs) key := by
    intro repo key
    rw [gen_eq, lookupKey_updateList]
    exact optOr_none_right _
  refine ⟨h1, ?_⟩
  intro repo₁ repo₂ key
  rw [h1, h1, h1, List.flatMap_append, lastVal_append]

/-- C4: the `generate_data_dictionary` method is a pure function of the
accumulated metadata sequence: it does not mutate the crawler state, its
output is determined by `metadata_repo` alone, and a second call with no
intervening crawls yields identical output. -/
theorem C4_theorem :
    ∀ st : CrawlerState,
      (generate_data_dictionary_call st).1 = st ∧
      (generate_data_dictionary_call st).2
        = generate_data_dictionary st.metadata_repo ∧
      (generate_data_dictionary_call ((generate_data_dictionary_call st).1)).2
        = (generate_data_dictionary_call st).2 :=
  fun _ => ⟨rfl, rfl, rfl⟩

/-- C10: the `data_dictionary` instance field written by `crawl_database`
is dead state for the read paths: `generate_data_dictionary` and the
workbook built by `export_to_excel` depend only on `metadata_repo` (and,
for the lineage sheet, the lineage graph), so two states with identical
`metadata_repo` produce identical outputs regardless of the
`data_dictionary` field. -/
theorem C10_theorem (st st' : CrawlerState) (hrepo : st.metadata_repo = st'.metadata_repo) :
    (generate_data_dictionary_call st).2 = (generate_data_dictionary_call st').2 ∧
    (st.lineage_graph = st'.lineage_graph → export_sheets st = export_sheets st') := by
  constructor
  · show generate_data_dictionary st.metadata_repo = _
    rw [hrepo]
    rfl
  · intro hg
    show export_sheets st = export_sheets st'
    unfold export_sheets
    rw [hrepo, hg]

/-- C10 witness: two concrete states that differ exactly in the
`data_dictionary` field produce the same dictionary and workbook. -/
theorem C10_witness :
    (generate_data_dictionary_call
        ⟨[], ⟨[], []⟩, [("junk", ⟨"x", none, none, none, none, "y", none⟩)]⟩).2
      = (generate_data_dictionary_call initState).2 ∧
    (export_sheets ⟨[], ⟨[], []⟩, [("junk", ⟨"x", none, none, none, none, "y", none⟩)]⟩
      = export_sheets initState) := by
  have h := C10_theorem
    ⟨[], ⟨[], []⟩, [("junk", ⟨"x", none, none, none, none, "y", none⟩)]⟩
    initState rfl
  exact ⟨h.1, h.2 rfl⟩

/-! ## Claim about the exporter (C9) -/

/-- C9: the workbook always has exactly the three sheets "Data Dictionary",
"Metadata Summary", "Lineage Map" with the fixed header rows first, and
exporting a fresh (empty) crawler succeeds and yields only the header
rows. -/
theorem C9_theorem :
    (∀ st : CrawlerState,
        (export_sheets st).map Sheet.title
            = ["Data Dictionary", "Metadata Summary", "Lineage Map"] ∧
        (export_sheets st).map (fun s => s.rows.headD [])
            = [["Field", "Source", "Type", "Table/File", "Column", "Data Type",
                "Nullable"],
              ["Source Type", "Count", "Details"],
              ["From", "To", "Relationship"]]) ∧
    (∀ path : String,
        export_to_excel initState path (.ok ())
          = ([⟨"Data Dictionary",
                [["Field", "Source", "Type", "Table/File", "Column", "Data Type",
                  "Nullable"]]⟩,
              ⟨"Metadata Summary", [["Source Type", "Count", "Details"]]⟩,
              ⟨"Lineage Map", [["From", "To", "Relationship"]]⟩],
            true, "Successfully exported to " ++ path)) := by
  exact ⟨fun st => ⟨rfl, rfl⟩, fun path => rfl⟩

/-! ## Lineage graph lemmas -/

theorem addNode_edges (g : LineageGraph) (n : String) (a : NodeAttrs) :
    (addNode g n a).edges = g.edges := rfl

theorem ensureNode_edges (g : LineageGraph) (n : String) :
    (ensureNode g n).edges = g.edges := by
  unfold ensureNode
  split <;> rfl

theorem addEdge_edges (g : LineageGraph) (u v r : String) :
    (addEdge g u v r).edges = dictInsert g.edges (u, v) ⟨some r⟩ := by
  show dictInsert (ensureNode (ensureNode g u) v).edges (u, v) ⟨some r⟩ = _
  rw [ensureNode_edges, ensureNode_edges]

theorem foldl_addEdge_edges (tn r : String) :
    ∀ (fks : List ForeignKeyInfo) (g : LineageGraph),
      ((fks.foldl (fun g fk => addEdge g tn fk.referred_table r) g)).edges
        = fks.foldl (fun e fk => dictInsert e (tn, fk.referred_table) ⟨some r⟩) g.edges
  | [], _ => rfl
  | fk :: rest, g => by
      simp only [List.foldl_cons]
      rw [foldl_addEdge_edges tn r rest _, addEdge_edges]

theorem processTable_edges (conn : String) (st : CrawlerState) (t : TableInfo) :
    (processTable conn st t).lineage_graph.edges
      = t.foreign_keys.foldl
          (fun e fk => dictInsert e (t.name, fk.referred_table) ⟨some "foreign_key"⟩)
          st.lineage_graph.edges := by
  unfold processTable
  rw [foldl_addEdge_edges]
  rfl

theorem processTable_repo (conn : String) (st : CrawlerState) (t : TableInfo) :
    (processTable conn st t).metadata_repo = st.metadata_repo := rfl

/-! ## Claims about the lineage graph (C7, C8) -/

/-- C7: crawling a database with two tables related by one foreign key
produces exactly one directed edge, from the referencing table to the
referenced table, tagged `foreign_key`; `crawl_api` and `crawl_file` never
touch the edge set. -/
theorem C7_theorem :
    (∀ (conn dbt ts : String) (t1 t2 : TableInfo),
        t1.foreign_keys = [⟨t2.name⟩] → t2.foreign_keys = [] → t1.name ≠ t2.name →
        (crawl_database initState conn dbt ts (.ok [.ok t1, .ok t2])).1.lineage_graph.edges
          = [((t1.name, t2.name), ⟨some "foreign_key"⟩)]) ∧
    (∀ (st : CrawlerState) (url ts : String) (resp : HttpResult),
        (crawl_api st url ts resp).1.lineage_graph.edges = st.lineage_graph.edges) ∧
    (∀ (st : CrawlerState) (path ts : String) (fa : FileAccess),
        (crawl_file st path ts fa).1.lineage_graph.edges = st.lineage_graph.edges) := by
  refine ⟨?_, ?_, ?_⟩
  · intro conn dbt ts t1 t2 hfk1 hfk2 _
    show (crawlTables conn dbt ts (processTable conn (processTable conn initState t1) t2)
        [t1, t2] []).1.lineage_graph.edges = _
    show (processTable conn (processTable conn initState t1) t2).lineage_graph.edges = _
    rw [processTable_edges, processTable_edges, hfk1, hfk2]
    rfl
  · intro st url ts resp
    rcases resp with e | ⟨status, sline, body⟩
    · rfl
    · by_cases hs : 400 ≤ status ∧ status < 600
      · simp [crawl_api, hs]
      · rcases body with e | data
        · simp [crawl_api, hs]
        · simp [crawl_api, hs, addNode_edges]
  · intro st path ts fa
    unfold crawl_file
    rcases hsz : fa.size with e | sz
    · rfl
    · dsimp only
      split
      · rfl
      · rfl

/-- C7 witness: an `orders → customers` foreign key yields exactly the one
tagged edge, and concrete API/file crawls leave the edge set unchanged. -/
theorem C7_witness :
    (crawl_database initState "sqlite:///shop.db" "sqlite" "ts"
          (.ok [.ok ⟨"orders", [⟨"customer_id", "INTEGER", true, none, false⟩], "",
                  [⟨"customers"⟩], ""⟩,
                .ok ⟨"customers",
                  [⟨"id", "INTEGER", false, none, true⟩], "", [], ""⟩])).1.lineage_graph.edges
      = [(("orders", "customers"), ⟨some "foreign_key"⟩)] ∧
    (crawl_api initState "https://x/data" "ts" (.exn "down")).1.lineage_graph.edges
      = initState.lineage_graph.edges := by
  constructor
  · exact C7_theorem.1 "sqlite:///shop.db" "sqlite" "ts"
      ⟨"orders", [⟨"customer_id", "INTEGER", true, none, false⟩], "", [⟨"customers"⟩], ""⟩
      ⟨"customers", [⟨"id", "INTEGER", false, none, true⟩], "", [], ""⟩
      rfl rfl (by decide)
  · exact C7_theorem.2.1 initState "https://x/data" "ts" (.exn "down")

/-- C8: a successful `crawl_api` reports success, appends exactly one
lineage node tagged `api` (when its name is not already a node), named by
`endpointName`, i.e. the last `/`-separated segment of the URL, with the
fixed placeholder `root` when that segment is empty; no edge is touched. -/
theorem C8_theorem (st : CrawlerState) (url ts sline : String) (status : Int)
    (data : PyVal) (hstatus : ¬(400 ≤ status ∧ status < 600))
    (hfresh : endpointName url ∉ keysOf st.lineage_graph.nodes) :
    (crawl_api st url ts (.response status sline (.ok data))).2.1 = true ∧
    (crawl_api st url ts (.response status sline (.ok data))).1.lineage_graph.nodes
      = st.lineage_graph.nodes ++ [(endpointName url, ⟨some "api", some url⟩)] ∧
    (crawl_api st url ts (.response status sline (.ok data))).1.lineage_graph.edges
      = st.lineage_graph.edges ∧
    endpointName "https://host/api/" = "root" := by
  refine ⟨?_, ?_, ?_, by decide⟩
  · simp [crawl_api, hstatus]
  · simp only [crawl_api, if_neg hstatus]
    show dictInsert st.lineage_graph.nodes (endpointName url) ⟨some "api", some url⟩ = _
    exact dictInsert_absent _ _ _ hfresh
  · simp [crawl_api, hstatus, addNode_edges]

/-- C8 witness: a 200 response on a fresh crawler adds the node `data`. -/
theorem C8_witness :
    (crawl_api initState "https://api.example.com/data" "ts"
          (.response 200 "" (.ok .vnone))).2.1 = true ∧
    (crawl_api initState "https://api.example.com/data" "ts"
          (.response 200 "" (.ok .vnone))).1.lineage_graph.nodes
      = initState.lineage_graph.nodes
          ++ [(endpointName "https://api.example.com/data", ⟨some "api",
                some "https://api.example.com/data"⟩)] := by
  have h := C8_theorem initState "https://api.example.com/data" "ts" "" 200 .vnone
    (by decide) (by simp [initState])
  exact ⟨h.1, h.2.1⟩

/-! ## Failure behaviour of the crawl operations (C1, C2) -/

theorem crawlTables_fail (conn dbt ts : String) :
    ∀ (steps : List TableStep) (st : CrawlerState) (acc : List TableInfo),
      (crawlTables conn dbt ts st acc steps).2.1 = false →
      (crawlTables conn dbt ts st acc steps).1.metadata_repo = st.metadata_repo ∧
      (crawlTables conn dbt ts st acc steps).2.2 ≠ ""
  | [], _, _, h => by simp [crawlTables] at h
  | .err e :: _, _, _, _ =>
      ⟨rfl, append_ne_empty_left _ _ (by decide)⟩
  | .ok t :: rest, st, acc, h => by
      have hr := crawlTables_fail conn dbt ts rest (processTable conn st t) (acc ++ [t]) h
      exact ⟨hr.1.trans (processTable_repo conn st t), hr.2⟩

/-- C1, counterexample: a `crawl_database` run that fails while
introspecting the second table returns `success = false` yet has already
grown the lineage graph by the first table's node, so the lineage graph is
not unchanged in size across every failed crawl. -/
theorem C1_counterexample :
    (crawl_database initState "sqlite:///x.db" "sqlite" "ts"
        (.ok [.ok ⟨"t1", [⟨"c1", "INTEGER", true, none, false⟩], "", [], ""⟩,
              .err "boom"])).2.1 = false ∧
    (crawl_database initState "sqlite:///x.db" "sqlite" "ts"
        (.ok [.ok ⟨"t1", [⟨"c1", "INTEGER", true, none, false⟩], "", [], ""⟩,
              .err "boom"])).1.lineage_graph.nodes.length
      ≠ initState.lineage_graph.nodes.length := by
  constructor
  · decide
  · decide

/-- C1 (amended): every failed crawl returns a non-empty message and
leaves `metadata_repo` unchanged in size (in fact unchanged); a failed
`crawl_api` or `crawl_file` also leaves the whole state — in particular
the lineage graph — unchanged, while a failed `crawl_database` may retain
the data-dictionary writes and lineage nodes/edges of tables processed
before the failure. -/
theorem C1_theorem :
    (∀ (st : CrawlerState) (url ts : String) (resp : HttpResult),
        (crawl_api st url ts resp).2.1 = false →
        (crawl_api st url ts resp).1 = st ∧ (crawl_api st url ts resp).2.2 ≠ "") ∧
    (∀ (st : CrawlerState) (path ts : String) (fa : FileAccess),
        (crawl_file st path ts fa).2.1 = false →
        (crawl_file st path ts fa).1 = st ∧ (crawl_file st path ts fa).2.2 ≠ "") ∧
    (∀ (st : CrawlerState) (conn dbt ts : String)
        (insp : Except String (List TableStep)),
        (crawl_database st conn dbt ts insp).2.1 = false →
        (crawl_database st conn dbt ts insp).1.metadata_repo = st.metadata_repo ∧
        (crawl_database st conn dbt ts insp).2.2 ≠ "") := by
  refine ⟨?_, ?_, ?_⟩
  · intro st url ts resp h
    rcases resp with e | ⟨status, sline, body⟩
    · exact ⟨rfl, append_ne_empty_left _ _ (by decide)⟩
    · by_cases hs : 400 ≤ status ∧ status < 600
      · simp only [crawl_api, if_pos hs]
        exact ⟨by trivial, append_ne_empty_left _ _ (by decide)⟩
      · rcases body with e | data
        · simp only [crawl_api, if_neg hs]
          exact ⟨by trivial, append_ne_empty_left _ _ (by decide)⟩
        · simp [crawl_api, if_neg hs] at h
  · intro st path ts fa h
    unfold crawl_file at h ⊢
    rcases hsz : fa.size with e | sz
    · simp only [hsz]
      exact ⟨by trivial, append_ne_empty_left _ _ (by decide)⟩
    · simp only [hsz] at h ⊢
      set res := (if file_extension path = ".csv" then
          fa.csv.map (fun df => some (infer_dataframe_schema df))
        else if file_extension path = ".xlsx" ∨ file_extension path = ".xls" then
          fa.excel.map (fun df => some (infer_dataframe_schema df))
        else if file_extension path = ".json" then
          fa.jsonData.map (fun d => some (infer_schema d ""))
        else .ok none) with hres
      clear_value res
      rcases res with e | schema?
      · exact ⟨by trivial, append_ne_empty_left _ _ (by decide)⟩
      · simp at h
  · intro st conn dbt ts insp h
    rcases insp with e | steps
    · exact ⟨rfl, append_ne_empty_left _ _ (by decide)⟩
    · exact crawlTables_fail conn dbt ts steps st [] h

/-- C1 witness: concrete failing calls of each operation. -/
theorem C1_witness :
    ((crawl_api initState "https://x/data" "ts" (.exn "timed out")).1 = initState ∧
      (crawl_api initState "https://x/data" "ts" (.exn "timed out")).2.2 ≠ "") ∧
    ((crawl_file initState "/tmp/a.csv" "ts"
          ⟨.error "no such file", .error "no such file", .error "no such file",
            .error "no such file"⟩).1 = initState ∧
      (crawl_file initState "/tmp/a.csv" "ts"
          ⟨.error "no such file", .error "no such file", .error "no such file",
            .error "no such file"⟩).2.2 ≠ "") ∧
    ((crawl_database initState "bad://" "sqlite" "ts"
          (.error "cannot connect")).1.metadata_repo = initState.metadata_repo ∧
      (crawl_database initState "bad://" "sqlite" "ts"
          (.error "cannot connect")).2.2 ≠ "") :=
  ⟨C1_theorem.1 initState "https://x/data" "ts" (.exn "timed out") rfl,
    C1_theorem.2.1 initState "/tmp/a.csv" "ts"
      ⟨.error "no such file", .error "no such file", .error "no such file",
        .error "no such file"⟩ rfl,
    C1_theorem.2.2 initState "bad://" "sqlite" "ts" (.error "cannot connect") rfl⟩

theorem lookupKey_append {κ α : Type} [DecidableEq κ] :
    ∀ (a b : List (κ × α)) (k : κ),
      lookupKey (a ++ b) k = optOr (lookupKey a k) (lookupKey b k)
  | [], _, _ => rfl
  | q :: t, b, k => by
      by_cases hq : q.1 = k
      · simp [lookupKey, hq, optOr]
      · simp [lookupKey, hq, lookupKey_append t b k]

theorem ensureNode_nodes_lookup (g : LineageGraph) (n m : String) (v : NodeAttrs)
    (h : lookupKey g.nodes m = some v) : lookupKey (ensureNode g n).nodes m = some v := by
  unfold ensureNode
  split
  · exact h
  · show lookupKey (g.nodes ++ [(n, ⟨none, none⟩)]) m = some v
    rw [lookupKey_append, h]
    rfl

theorem addEdge_nodes_lookup (g : LineageGraph) (u w r m : String) (v : NodeAttrs)
    (h : lookupKey g.nodes m = some v) : lookupKey (addEdge g u w r).nodes m = some v := by
  show lookupKey (ensureNode (ensureNode g u) w).nodes m = some v
  exact ensureNode_nodes_lookup _ _ _ _ (ensureNode_nodes_lookup _ _ _ _ h)

theorem foldl_addEdge_nodes_lookup (tn r : String) :
    ∀ (fks : List ForeignKeyInfo) (g : LineageGraph) (m : String) (v : NodeAttrs),
      lookupKey g.nodes m = some v →
      lookupKey ((fks.foldl (fun g fk => addEdge g tn fk.referred_table r) g)).nodes m
        = some v
  | [], _, _, _, h => h
  | fk :: rest, g, m, v, h =>
      foldl_addEdge_nodes_lookup tn r rest _ m v
        (addEdge_nodes_lookup g tn fk.referred_table r m v h)

/-- A run whose table steps are some successes followed by an introspection
error ends in the state obtained by fully processing the successful
prefix. -/
theorem crawlTables_prefix (conn dbt ts e : String) (post : List TableStep) :
    ∀ (pre : List TableInfo) (st : CrawlerState) (acc : List TableInfo),
      crawlTables conn dbt ts st acc (pre.map .ok ++ .err e :: post)
        = (pre.foldl (processTable conn) st, false, "Database crawl error: " ++ e)
  | [], _, _ => rfl
  | t :: rest, st, acc =>
      crawlTables_prefix conn dbt ts e post rest (processTable conn st t) (acc ++ [t])

/-- C2: when `crawl_database` fails partway through introspection, nothing
is rolled back: the run returns `(false, message)` with the state exactly
as mutated by the tables processed before the failure; in particular, for
a one-table prefix, the last column's data-dictionary entry and the
table's lineage node are still present afterwards (while the assembled
record is discarded, so `metadata_repo` itself is unchanged). -/
theorem C2_theorem (st : CrawlerState) (conn dbt ts e : String) (pre : List TableInfo)
    (post : List TableStep) (t : TableInfo) (cs : List ColumnInfo) (c : ColumnInfo)
    (hpre : pre = [t]) (hcols : t.columns = cs ++ [c]) :
    crawl_database st conn dbt ts (.ok (pre.map .ok ++ .err e :: post))
      = (pre.foldl (processTable conn) st, false, "Database crawl error: " ++ e) ∧
    (crawl_database st conn dbt ts (.ok (pre.map .ok ++ .err e :: post))).2.1 = false ∧
    lookupKey
        (crawl_database st conn dbt ts
            (.ok (pre.map .ok ++ .err e :: post))).1.data_dictionary
        (t.name ++ "." ++ c.name)
      = some ⟨conn, none, some t.name, some c.name, none, c.type, some c.nullable⟩ ∧
    lookupKey
        (crawl_database st conn dbt ts
            (.ok (pre.map .ok ++ .err e :: post))).1.lineage_graph.nodes t.name
      = some ⟨some "table", some "database"⟩ ∧
    (crawl_database st conn dbt ts
        (.ok (pre.map .ok ++ .err e :: post))).1.metadata_repo = st.metadata_repo := by
  have hrun : crawl_database st conn dbt ts (.ok (pre.map .ok ++ .err e :: post))
      = (pre.foldl (processTable conn) st, false, "Database crawl error: " ++ e) :=
    crawlTables_prefix conn dbt ts e post pre st []
  subst hpre
  refine ⟨hrun, by rw [hrun], ?_, ?_, ?_⟩
  · rw [hrun]
    simp only [List.foldl_cons, List.foldl_nil]
    show lookupKey (dictUpdateList st.data_dictionary (columnDictPairs conn t)) _ = _
    rw [lookupKey_updateList]
    have hlast : lastVal (columnDictPairs conn t) (t.name ++ "." ++ c.name)
        = some ⟨conn, none, some t.name, some c.name, none, c.type, some c.nullable⟩ := by
      unfold columnDictPairs
      rw [hcols, List.map_append, lastVal_append]
      simp [lastVal, optOr]
    rw [hlast]
    rfl
  · rw [hrun]
    simp only [List.foldl_cons, List.foldl_nil]
    show lookupKey
        ((t.foreign_keys.foldl
            (fun g fk => addEdge g t.name fk.referred_table "foreign_key")
            (addNode st.lineage_graph t.name ⟨some "table", some "database"⟩))).nodes
        t.name = _
    apply foldl_addEdge_nodes_lookup
    show lookupKey (dictInsert st.lineage_graph.nodes t.name _) t.name = _
    rw [lookupKey_dictInsert]
    simp
  · rw [hrun]
    simp only [List.foldl_cons, List.foldl_nil]
    exact processTable_repo conn st t

/-- C2 witness: a concrete two-step run failing on the second table keeps
the first table's column entry and node. -/
theorem C2_witness :
    (crawl_database initState "sqlite:///x.db" "sqlite" "ts"
          (.ok ([⟨"t1", [⟨"c1", "INTEGER", true, none, false⟩], "", [], ""⟩].map .ok
            ++ .err "boom" :: []))).2.1 = false ∧
    lookupKey
        (crawl_database initState "sqlite:///x.db" "sqlite" "ts"
            (.ok ([⟨"t1", [⟨"c1", "INTEGER", true, none, false⟩], "", [], ""⟩].map .ok
              ++ .err "boom" :: []))).1.data_dictionary "t1.c1"
      = some ⟨"sqlite:///x.db", none, some "t1", some "c1", none, "INTEGER",
          some true⟩ := by
  have h := C2_theorem initState "sqlite:///x.db" "sqlite" "ts" "boom"
    [⟨"t1", [⟨"c1", "INTEGER", true, none, false⟩], "", [], ""⟩] []
    ⟨"t1", [⟨"c1", "INTEGER", true, none, false⟩], "", [], ""⟩
    [] ⟨"c1", "INTEGER", true, none, false⟩ rfl rfl
  exact ⟨h.2.1, h.2.2.1⟩
